import Mathlib

/-!
# Verification of pydriosm (download_GeoFabrik.py, settings.py)

A shallow embedding of the effectful Python code of `pydriosm`:
the filesystem is an explicit association list from path to an abstract
content tag, console output is an explicit list of messages, network
activity is counted explicitly, and external library behaviour
(pandas/bs4 parsing, fuzzywuzzy matching, gdal option storage) is
supplied through oracle parameters or modelled from its documented
behaviour.  Fallible operations return `Option`/`Except`.
-/

set_option maxHeartbeats 1000000

namespace Pydriosm

/-! ## Effect model: local disk and console messages -/

/-- Local filesystem model: an association list from file path to an abstract
content tag; the first binding for a path is its current content. -/
abbrev Disk : Type := List (String × Nat)

/-- Current content of a file on the local disk model (`none` = absent). -/
def diskLookup (d : Disk) (f : String) : Option Nat :=
  List.lookup f d

/-- Modelled from the spec: the structured-data save operations
(`save_pickle` / `save_json` in `pydriosm.utils`, which is not among the given
source files) overwrite the target artifact wholesale (spec 4.1); modelled as
installing a fresh content tag for the path. -/
def diskWrite (d : Disk) (f : String) (v : Nat) : Disk :=
  (f, v) :: d

/-- File deletion (`os.remove`): drop every binding for the path. -/
def diskErase (d : Disk) (f : String) : Disk :=
  d.filter (fun e => e.1 != f)

/-- Console messages printed by the modelled fragments of
`download_GeoFabrik.py`.  Each constructor stands for one `print` call site,
carrying the data interpolated into the printed text. -/
inductive Msg where
  | invalidInputUrl : Msg
  | homePageNoIndex : Msg
  | checkedOut : String → Msg
  deriving DecidableEq, Repr

/-- Python's `str.endswith`, on the character sequences of the strings. -/
def strEndsWith (s pat : String) : Bool :=
  pat.data.isSuffixOf s.data

/-- The suffix test `url.endswith('.osm.pbf') or url.endswith('.shp.zip') or
url.endswith('.osm.bz2')` guarding both parsers, and the extension check of
`remove_subregion_osm_file`. -/
def hasFormatSuffix (url : String) : Bool :=
  strEndsWith url ".osm.pbf" || strEndsWith url ".shp.zip" || strEndsWith url ".osm.bz2"

/-! ## 4.2 Directory Table Parser: `get_raw_directory_table` -/

/-- Oracle for the pandas pipeline of `get_raw_directory_table` (lines 33-42):
`none` means `pd.read_html`/cleaning raised one of the caught error kinds
(`urllib.error.HTTPError`, `TypeError`, `ValueError`); `some t` is the
processed directory table, abstracted to a tag. -/
structure DirPageOracle where
  readHtml : Option Nat

/-- Model of `get_raw_directory_table(url)`.  Returns (result, network-request count,
printed messages).  `urlPathLen` abstracts `len(urllib.parse.urlparse(url).path)`. -/
def get_raw_directory_table (net : DirPageOracle) (urlPathLen : Nat) (url : String) :
    Option Nat × Nat × List Msg :=
  if hasFormatSuffix url then
    (none, 0, [Msg.invalidInputUrl])
  else
    match net.readHtml with
    | some t => (some t, 1, [])
    | none => (none, 1, if urlPathLen ≤ 1 then [Msg.homePageNoIndex] else [])

/-! ## 4.3 Subregion Table Parser: `get_subregion_table` -/

/-- The three format tags. -/
inductive Fmt where
  | pbf | shp | bz2
  deriving DecidableEq, Repr

/-- Abstraction of the pandas table parsed by `get_subregion_table` after the
column renaming (lines 64-77): the per-row subregion names and, for each
format column, the per-row non-missing mask used by
`subregion_table[file_type].notnull()`. -/
structure SubTable where
  subregions : List String
  notnullPbf : List Bool
  notnullShp : List Bool
  notnullBz2 : List Bool
  deriving DecidableEq, Repr

/-- The non-missing mask of a format column. -/
def SubTable.notnull (t : SubTable) : Fmt → List Bool
  | Fmt.pbf => t.notnullPbf
  | Fmt.shp => t.notnullShp
  | Fmt.bz2 => t.notnullBz2

/-- Oracle for the external effects of `get_subregion_table`:
`readHtml = none` means `pd.read_html`/`pd.concat`/column fixing raised one of
the caught error kinds (notably `ValueError` on a page without a matching
sub-regions table, i.e. a leaf page); `anchors fmt` is the list of resolved
URLs of the anchors whose text is `[fmt]`, found by BeautifulSoup
(lines 84-87); `subUrls = none` means both the primary per-name anchor lookup
and the `onmouseover` fallback raised a caught error, otherwise the per-row
listing URLs (lines 90-97). -/
structure SubPageOracle where
  readHtml : Option SubTable
  anchors : Fmt → List String
  subUrls : Option (List String)

/-- The loop order `for file_type in file_types` of lines 84-88. -/
def fmtOrder : List Fmt := [Fmt.pbf, Fmt.shp, Fmt.bz2]

/-- The assignment `subregion_table.loc[mask, file_type] = urls` (line 88) raises
`ValueError` unless the assigned list has exactly as many elements as the mask
has `True` cells; this predicate states that all three positional assignments
succeed. -/
def fmtAssignOk (t : SubTable) (anchors : Fmt → List String) : Bool :=
  fmtOrder.all (fun fmt => (anchors fmt).length == (t.notnull fmt).count true)

/-- Model of `get_subregion_table(url)`.  Returns (result, network-request count,
printed messages); the result carries the parsed table and the appended
`SubregionURL` column.  On any caught error the function prints the
"Checked out" diagnostic (line 105) and returns no result. -/
def get_subregion_table (net : SubPageOracle) (url : String) :
    Option (SubTable × List String) × Nat × List Msg :=
  if hasFormatSuffix url then
    (none, 0, [Msg.invalidInputUrl])
  else
    match net.readHtml with
    | none => (none, 1, [Msg.checkedOut url])
    | some t =>
      -- `requests.get(url)` (line 80) is the second network request; the
      -- anchor-assignment loop and URL extraction then run on its soup.
      if fmtAssignOk t net.anchors then
        match net.subUrls with
        | some us => (some (t, us), 2, [])
        | none => (none, 2, [Msg.checkedOut url])
      else (none, 2, [Msg.checkedOut url])

/-! ## 4.5 Subregion Catalogue Collector: `collect_subregion_info_catalogue`

The whole body of the function sits in one `try` whose handler prints a
diagnostic.  We model the run as a sequence of effectful steps in source
order; `failAt` is the oracle saying which step (if any) raises the first
uncaught exception.  A save step writes its cache file before the next step
runs. -/

/-- The effectful steps of `collect_subregion_info_catalogue`, in source
order: the whole-site crawl (lines 122-148), then the five persistence /
construction steps (lines 151-168). -/
inductive CStep where
  | crawl
  | saveNameListP
  | saveUrlDictP
  | saveUrlDictJ
  | buildDownloads
  | saveDownloadsP
  | saveDownloadsJ
  deriving DecidableEq, Repr

/-- The cache file written by a step (`cd_dat` filenames of lines 151-168). -/
def stepFile : CStep → Option String
  | CStep.saveNameListP => some "GeoFabrik-subregion-name-list.pickle"
  | CStep.saveUrlDictP => some "GeoFabrik-subregion-name-url-dictionary.pickle"
  | CStep.saveUrlDictJ => some "GeoFabrik-subregion-name-url-dictionary.json"
  | CStep.saveDownloadsP => some "GeoFabrik-subregion-downloads-catalogue.pickle"
  | CStep.saveDownloadsJ => some "GeoFabrik-subregion-downloads-catalogue.json"
  | _ => none

/-- Source order of the steps inside the `try`. -/
def collectSteps : List CStep :=
  [CStep.crawl, CStep.saveNameListP, CStep.saveUrlDictP, CStep.saveUrlDictJ,
   CStep.buildDownloads, CStep.saveDownloadsP, CStep.saveDownloadsJ]

/-- Position of a step in source order. -/
def stepIndex : CStep → Nat
  | CStep.crawl => 0
  | CStep.saveNameListP => 1
  | CStep.saveUrlDictP => 2
  | CStep.saveUrlDictJ => 3
  | CStep.buildDownloads => 4
  | CStep.saveDownloadsP => 5
  | CStep.saveDownloadsJ => 6

/-- Run the steps in order; on the first raising step the exception escapes
to the outer handler, which prints the "Failed to get the required
information" diagnostic (line 171); the Bool records whether that diagnostic
was printed. -/
def runSteps (failAt : Option CStep) (runVal : Nat) : List CStep → Disk → Disk × Bool
  | [], d => (d, false)
  | s :: rest, d =>
    if failAt = some s then (d, true)
    else
      runSteps failAt runVal rest
        (match stepFile s with
         | some f => diskWrite d f runVal
         | none => d)

/-- Model of `collect_subregion_info_catalogue(confirmation_required)`: `proceed` is
the outcome of the `confirmed` gate (line 116); when it is false nothing runs
(only the "not activated" notice is printed); otherwise the guarded steps run
with `failAt` as the failure oracle.  `runVal` is the content tag written by
this run's saves. -/
def collect_subregion_info_catalogue (proceed : Bool) (failAt : Option CStep)
    (runVal : Nat) (d : Disk) : Disk × Bool :=
  if proceed then runSteps failAt runVal collectSteps d else (d, false)

/-! ## 4.8 Name Resolution: `fuzzywuzzy.process.extractOne` and
`regulate_input_subregion_name` -/

/-- Python's `max` over (choice, score) pairs by score: the running best is
replaced only on a strictly greater score, so the first of tied maxima wins.
Modelled from the documented behaviour of the external
`fuzzywuzzy.process.extractOne`, which takes the max of its candidate list. -/
def pyMax : List (String × Nat) → Option (String × Nat)
  | [] => none
  | x :: xs => some (xs.foldl (fun b y => if y.2 > b.2 then y else b) x)

/-- Model of the external `fuzzywuzzy.process.extractOne(query, choices,
score_cutoff)`: scores every choice with the scorer, keeps those with score at
least the cutoff, and returns the best (first of ties) as a (choice, score)
pair, or nothing when no choice passes the cutoff.  The token-based scorer
itself is an oracle parameter `score`. -/
def extractOne (score : String → String → Nat) (query : String)
    (choices : List String) (cutoff : Nat) : Option (String × Nat) :=
  pyMax ((choices.map (fun c => (c, score query c))).filter (fun p => decide (cutoff ≤ p.2)))

/-- Model of `regulate_input_subregion_name(subregion_name)` (lines 328-337):
fuzzy-matches the input against the canonical subregion name list with a
score cutoff of 50 and returns the matched name; `none` models the
`TypeError` raised by unpacking when `extractOne` returns no match. -/
def regulate_input_subregion_name (score : String → String → Nat)
    (subregion_names : List String) (name : String) : Option String :=
  (extractOne score name subregion_names 50).map Prod.fst

/-! ## 4.9 Download URL/Path Resolver: segment matching in
`get_default_path_to_osm_file` -/

/-- An `Option`-valued `mapM` on lists, sequencing left to right and failing at
the first failure (the behaviour of a Python loop or comprehension whose body
can raise). -/
def mapMOpt {α β : Type} (f : α → Option β) : List α → Option (List β)
  | [] => some []
  | a :: l =>
    match f a, mapMOpt f l with
    | some b, some bs => some (b :: bs)
    | _, _ => none

/-- The directory-name resolution of `get_default_path_to_osm_file`
(line 387): each URL path segment but the last is matched with
`fuzzywuzzy.process.extractOne(x, subregion_names)` — note: no score cutoff,
so the default cutoff 0 applies — and the matched name is taken by `[0]`
(`none` models the `TypeError` of subscripting a `None` match). -/
def get_default_path_dirnames (score : String → String → Nat)
    (subregion_names : List String) (parsedPath : List String) : Option (List String) :=
  mapMOpt (fun x => (extractOne score x subregion_names 0).map Prod.fst) parsedPath.dropLast

/-! ## 4.10 Subregion Name Retrieval: `retrieve_subregion_names_from` -/

mutual
/-- The region-subregion tier: a Python dict from region name to value, an
association list in insertion order. -/
inductive TierDict where
  | nil : TierDict
  | cons : String → TierVal → TierDict → TierDict

/-- A value of the tier dict: either a nested dict or a non-dict terminal
marker. -/
inductive TierVal where
  | dict : TierDict → TierVal
  | term : TierVal
end

/-- Python `list(v.keys())` of a tier dict, in insertion order. -/
def TierDict.keys : TierDict → List String
  | TierDict.nil => []
  | TierDict.cons k _ rest => k :: rest.keys

mutual
-- The inner generator of retrieve_subregion_names_from, see doc below.
/-- The inner generator `find_subregions(reg_name, reg_sub_idx)` of
`retrieve_subregion_names_from` (lines 407-419), as the list of its yields in
order: for each entry, a matching key yields its children's keys (dict value)
or the name itself (terminal value); a non-matching dict value is searched
recursively, its yields passed through. -/
def find_subregions (regName : String) : TierDict → List (List String)
  | TierDict.nil => []
  | TierDict.cons k v rest =>
    if regName = k then
      (match v with
        | TierVal.dict children => children.keys
        | TierVal.term => [regName]) :: find_subregions regName rest
    else
      findSubVal regName v ++ find_subregions regName rest

/-- Yields contributed by one dict value in the `elif isinstance(v, dict)`
branch of `find_subregions`. -/
def findSubVal (regName : String) : TierVal → List (List String)
  | TierVal.dict children => find_subregions regName children
  | TierVal.term => []
end

/-- Python `list(dict.fromkeys(result))` (line 437): deduplicate keeping the first
occurrence of each element, preserving first-seen order. -/
def pyDedup (l : List String) : List String :=
  l.foldl (fun acc x => if x ∈ acc then acc else acc ++ [x]) []

/-- The body of `retrieve_subregion_names_from` for a non-empty argument
tuple (lines 425-437), with explicit fuel for the Python-level recursion
(fuel 0 = the model cannot certify termination):
for each input name, regulate it and take the first yield of
`find_subregions` (a raised `IndexError` on no yield is `none`); split the
accumulated result into names on the non-subregion list and the rest
(`check_list`); if `check_list` is non-empty, keep `set(res) - set(check_list)`
— the iteration order of this Python set difference is itself an oracle
`setDiff` — and recursively expand every `check_list` entry; finally
deduplicate preserving first-seen order. -/
def pyRetrieveAux (tier : TierDict) (nsl : List String)
    (setDiff : List String → List String → List String)
    (regulate : String → String) : Nat → List String → Option (List String)
  | 0, _ => none
  | fuel + 1, names =>
    match mapMOpt (fun region => (find_subregions (regulate region) tier).head?) names with
    | none => none
    | some parts =>
      if parts.flatten.filter (fun x => !(nsl.contains x)) = [] then
        some (pyDedup parts.flatten)
      else
        match mapMOpt (fun region => pyRetrieveAux tier nsl setDiff regulate fuel [region])
            (parts.flatten.filter (fun x => !(nsl.contains x))) with
        | none => none
        | some extras =>
          some (pyDedup (setDiff parts.flatten
            (parts.flatten.filter (fun x => !(nsl.contains x))) ++ extras.flatten))

/-- Model of `retrieve_subregion_names_from(*subregion_name)` (lines 399-437): with no
arguments, the deduplicated persisted non-subregion list; otherwise the
recursive expansion `pyRetrieveAux`. -/
def retrieve_subregion_names_from (tier : TierDict) (nsl : List String)
    (setDiff : List String → List String → List String)
    (regulate : String → String) (fuel : Nat) (names : List String) : Option (List String) :=
  if names = [] then some (pyDedup nsl)
  else pyRetrieveAux tier nsl setDiff regulate fuel names

/-- What Python guarantees about the iteration order of
`list(set(res) - set(check_list))`: a duplicate-free list whose members are
exactly the members of `res` that are not members of `check_list`.  The order
itself is hash-dependent, so it is left unconstrained. -/
def SetDiffSpec (setDiff : List String → List String → List String) : Prop :=
  ∀ a b : List String, (setDiff a b).Nodup ∧ ∀ x, x ∈ setDiff a b ↔ (x ∈ a ∧ x ∉ b)

/-- One admissible instance of the Python set difference (used by witnesses):
members of `a` not in `b`, first occurrences, in order of `a`. -/
def listSetDiff (a b : List String) : List String :=
  pyDedup (a.filter (fun x => !(b.contains x)))

/-- The terminal expansion relation defined by the code's own data: `x` is a
terminal name reached from `n` when the first yield of `find_subregions n`
contains `x` and `x` is on the non-subregion list (kept as-is), or contains a
name `y` off the non-subregion list from which `x` is reached recursively. -/
inductive ReachTerm (tier : TierDict) (nsl : List String) : String → String → Prop where
  | base : ∀ n l x, (find_subregions n tier).head? = some l → x ∈ l → x ∈ nsl →
      ReachTerm tier nsl n x
  | step : ∀ n l y x, (find_subregions n tier).head? = some l → y ∈ l → y ∉ nsl →
      ReachTerm tier nsl y x → ReachTerm tier nsl n x

/-! ## 4.11 File Download Orchestrator: `download_subregion_osm_file` -/

/-- The data resolved for one requested name (lines 454-462): the canonical
name and download URL from `get_subregion_download_url`, and the default
filename and target path (from `get_default_path_to_osm_file` or from the
caller-supplied directory).  The resolution is an oracle parameter. -/
structure Resolved where
  name : String
  url : String
  filename : String
  path : String

/-- Console messages of `download_subregion_osm_file`. -/
inductive DlMsg where
  | alreadyAvailable : String → String → String → DlMsg
  | downloadDone : String → String → String → DlMsg
  | downloadFailed : String → DlMsg
  | notActivated : DlMsg
  deriving DecidableEq, Repr

/-- Modelled from the spec: the confirmation prompt `confirmed` from
`pydriosm.utils` (spec 4.1) — when confirmation is not required it returns
true without prompting, otherwise it returns the operator's answer. -/
def confirmedFn (answer : Bool) (confirmationRequired : Bool) : Bool :=
  if confirmationRequired then answer else true

/-- One iteration of the loop of `download_subregion_osm_file`
(lines 451-482): resolve the name; if the target path exists and `update` is
false, do nothing (printing the "already available" notice when `verbose`);
otherwise, after the confirmation gate, call `download` — `dlOutcome url =
some v` writes content `v` at the path, `none` is a download exception,
caught and reported.  Returns (disk, number of `download` calls, messages). -/
def downloadOne (resolve : String → Resolved) (answer confirmationRequired : Bool)
    (dlOutcome : String → Option Nat) (update verbose : Bool)
    (subRegName : String) (d : Disk) : Disk × Nat × List DlMsg :=
  let r := resolve subRegName
  if (diskLookup d r.path).isSome && !update then
    (d, 0, if verbose then [DlMsg.alreadyAvailable r.filename r.name r.path] else [])
  else
    if confirmedFn answer confirmationRequired then
      match dlOutcome r.url with
      | some v => (diskWrite d r.path v, 1, [DlMsg.downloadDone r.filename r.name r.path])
      | none => (d, 1, [DlMsg.downloadFailed r.filename])
    else (d, 0, [DlMsg.notActivated])

/-- Model of `download_subregion_osm_file(*subregion_name, ...)`: the loop over the
requested names, threading the disk and accumulating download-call counts and
messages. -/
def download_subregion_osm_file (resolve : String → Resolved)
    (answer confirmationRequired : Bool) (dlOutcome : String → Option Nat)
    (update verbose : Bool) : List String → Disk → Disk × Nat × List DlMsg
  | [], d => (d, 0, [])
  | n :: rest, d =>
    let step := downloadOne resolve answer confirmationRequired dlOutcome update verbose n d
    let next := download_subregion_osm_file resolve answer confirmationRequired dlOutcome
        update verbose rest step.1
    (next.1, step.2.1 + next.2.1, step.2.2 ++ next.2.2)

/-! ## 4.12 File Removal Utility: `remove_subregion_osm_file` -/

/-- Console messages of `remove_subregion_osm_file`; constructors carry the
path whose pieces (`os.path.basename` / `os.path.split`) the prints
interpolate. -/
inductive RmMsg where
  | removed : String → RmMsg
  | removeError : RmMsg
  | notExist : String → RmMsg
  deriving DecidableEq, Repr

/-- Model of `remove_subregion_osm_file(path_to_osm_file)` (lines 506-521).
`osRemoveFails` is the oracle for whether `os.remove` raises.  Returns either
the assertion failure (`Except.error`, from the extension assert of line 510)
or the new disk plus printed messages, paired with the number of filesystem
operations performed (`os.path.isfile` and `os.remove` count one each). -/
def remove_subregion_osm_file (osRemoveFails : Bool) (path : String) (d : Disk) :
    Except Unit (Disk × List RmMsg) × Nat :=
  if !(hasFormatSuffix path) then
    (Except.error (), 0)
  else if (diskLookup d path).isSome then
    if osRemoveFails then
      (Except.ok (d, [RmMsg.removeError]), 2)
    else
      (Except.ok (diskErase d path, [RmMsg.removed path]), 2)
  else
    (Except.ok (d, [RmMsg.notExist path]), 1)

/-! ## 4.13 Geospatial Library Configuration: `gdal_configurations` -/

/-- The gdal global option store, modelled as an association list updated by
`gdal.SetConfigOption`; the first binding for a key is its current value. -/
abbrev GdalState : Type := List (String × String)

/-- Model of `gdal.SetConfigOption(key, value)` (external library, modelled from its
documented behaviour: installs a process-wide key/value binding). -/
def SetConfigOption (key value : String) (st : GdalState) : GdalState :=
  (key, value) :: st

/-- Current value of a gdal configuration option. -/
def getConfigOption (key : String) (st : GdalState) : Option String :=
  List.lookup key st

/-- Model of `gdal_configurations(reset=False)` from `pydriosm/settings.py`: applies
the four `SetConfigOption` calls of the chosen branch, in source order. -/
def gdal_configurations (reset : Bool) (st : GdalState) : GdalState :=
  if !reset then
    SetConfigOption "MAX_TMPFILE_SIZE" "2000"
      (SetConfigOption "COMPRESS_NODES" "NO"
        (SetConfigOption "USE_CUSTOM_INDEXING" "YES"
          (SetConfigOption "OGR_INTERLEAVED_READING" "YES" st)))
  else
    SetConfigOption "MAX_TMPFILE_SIZE" "100"
      (SetConfigOption "COMPRESS_NODES" "NO"
        (SetConfigOption "USE_CUSTOM_INDEXING" "YES"
          (SetConfigOption "OGR_INTERLEAVED_READING" "NO" st)))

/-- The tier of Testable Property 3, used by witnesses: "Greater London" a
leaf child of "England", which is a child of "United Kingdom" alongside the
leaf "Wales". -/
def ukTier : TierDict :=
  TierDict.cons "United Kingdom"
    (TierVal.dict (TierDict.cons "England"
        (TierVal.dict (TierDict.cons "Greater London" TierVal.term TierDict.nil))
      (TierDict.cons "Wales" TierVal.term TierDict.nil)))
    TierDict.nil

/-! ## Helper lemmas -/

theorem diskLookup_write (d : Disk) (f g : String) (v : Nat) :
    diskLookup (diskWrite d f v) g = if g = f then some v else diskLookup d g := by
  by_cases h : g = f
  · subst h; simp [diskLookup, diskWrite, List.lookup]
  · simp [diskLookup, diskWrite, List.lookup, h, beq_eq_false_iff_ne.mpr h]

theorem pyDedup_fold_mem (l acc : List String) (x : String) :
    x ∈ l.foldl (fun a y => if y ∈ a then a else a ++ [y]) acc ↔ x ∈ acc ∨ x ∈ l := by
  induction l generalizing acc with
  | nil => simp
  | cons y l ih =>
    by_cases hy : y ∈ acc
    · simp only [List.foldl_cons, if_pos hy, ih, List.mem_cons]
      constructor
      · rintro (h | h)
        · exact Or.inl h
        · exact Or.inr (Or.inr h)
      · rintro (h | h | h)
        · exact Or.inl h
        · exact Or.inl (h ▸ hy)
        · exact Or.inr h
    · simp only [List.foldl_cons, if_neg hy, ih, List.mem_append, List.mem_singleton,
        List.mem_cons]
      tauto

theorem pyDedup_fold_nodup (l acc : List String) (h : acc.Nodup) :
    (l.foldl (fun a y => if y ∈ a then a else a ++ [y]) acc).Nodup := by
  induction l generalizing acc with
  | nil => simpa using h
  | cons y l ih =>
    by_cases hy : y ∈ acc
    · simp only [List.foldl_cons, if_pos hy]
      exact ih acc h
    · simp only [List.foldl_cons, if_neg hy]
      exact ih (acc ++ [y]) (by simp [List.nodup_append, h, hy])

theorem pyDedup_mem (l : List String) (x : String) : x ∈ pyDedup l ↔ x ∈ l := by
  simpa [pyDedup] using pyDedup_fold_mem l [] x

theorem pyDedup_nodup (l : List String) : (pyDedup l).Nodup :=
  pyDedup_fold_nodup l [] List.nodup_nil

theorem pyDedup_fold_of_nodup (l acc : List String) (h : (acc ++ l).Nodup) :
    l.foldl (fun a y => if y ∈ a then a else a ++ [y]) acc = acc ++ l := by
  induction l generalizing acc with
  | nil => simp
  | cons y l ih =>
    have h' : (y :: (acc ++ l)).Nodup := by
      rw [← List.nodup_middle]; exact h
    have hy : y ∉ acc := fun hc => h'.not_mem (List.mem_append_left l hc)
    rw [List.foldl_cons, if_neg hy, ih (acc ++ [y]) (by simpa using h)]
    simp

theorem pyDedup_of_nodup (l : List String) (h : l.Nodup) : pyDedup l = l := by
  simpa [pyDedup] using pyDedup_fold_of_nodup l [] (by simpa using h)

theorem mem_filter_not_contains (res nsl : List String) (x : String) :
    x ∈ res.filter (fun y => !(nsl.contains y)) ↔ x ∈ res ∧ x ∉ nsl := by
  simp [List.mem_filter]

theorem listSetDiff_spec : SetDiffSpec listSetDiff := by
  intro a b
  constructor
  · exact pyDedup_nodup _
  · intro x
    rw [listSetDiff, pyDedup_mem, mem_filter_not_contains]

theorem mapMOpt_sound {α β : Type} (f : α → Option β) :
    ∀ l parts, mapMOpt f l = some parts →
      (∀ b ∈ parts, ∃ a ∈ l, f a = some b) ∧ (∀ a ∈ l, ∃ b ∈ parts, f a = some b) ∧
        parts.length = l.length := by
  intro l
  induction l with
  | nil => intro parts h; simp [mapMOpt] at h; simp [h]
  | cons a l ih =>
    intro parts h
    rw [mapMOpt] at h
    cases hfa : f a with
    | none => rw [hfa] at h; cases h
    | some b =>
      rw [hfa] at h
      cases hrest : mapMOpt f l with
      | none => rw [hrest] at h; cases h
      | some bs =>
        rw [hrest] at h
        injection h with h
        subst h
        obtain ⟨ih1, ih2, ih3⟩ := ih bs hrest
        refine ⟨?_, ?_, by simp [ih3]⟩
        · intro c hc
          rcases List.mem_cons.mp hc with hc | hc
          · exact ⟨a, List.mem_cons_self a l, hc ▸ hfa⟩
          · obtain ⟨a', ha', hfa'⟩ := ih1 c hc
            exact ⟨a', List.mem_cons_of_mem a ha', hfa'⟩
        · intro a' ha'
          rcases List.mem_cons.mp ha' with ha' | ha'
          · exact ⟨b, List.mem_cons_self b bs, ha' ▸ hfa⟩
          · obtain ⟨c, hc, hfc⟩ := ih2 a' ha'
            exact ⟨c, List.mem_cons_of_mem b hc, hfc⟩

theorem mapMOpt_isSome {α β : Type} (f : α → Option β) :
    ∀ l, (∀ a ∈ l, (f a).isSome) → ∃ parts, mapMOpt f l = some parts := by
  intro l
  induction l with
  | nil => exact fun _ => ⟨[], rfl⟩
  | cons a l ih =>
    intro h
    obtain ⟨b, hb⟩ := Option.isSome_iff_exists.mp (h a (List.mem_cons_self a l))
    obtain ⟨bs, hbs⟩ := ih (fun a' ha' => h a' (List.mem_cons_of_mem a ha'))
    exact ⟨b :: bs, by rw [mapMOpt, hb, hbs]⟩

/-! ## Claim theorems -/

/-- C8: `gdal_configurations` with `reset=False` sets the four global
options to `YES, YES, NO, 2000`; with `reset=True` to `NO, YES, NO, 100`; and
applying the default preset then the reset preset leaves all four options at
the reset values. -/
theorem gdal_configurations_presets (st : GdalState) :
    getConfigOption "OGR_INTERLEAVED_READING" (gdal_configurations false st) = some "YES" ∧
    getConfigOption "USE_CUSTOM_INDEXING" (gdal_configurations false st) = some "YES" ∧
    getConfigOption "COMPRESS_NODES" (gdal_configurations false st) = some "NO" ∧
    getConfigOption "MAX_TMPFILE_SIZE" (gdal_configurations false st) = some "2000" ∧
    getConfigOption "OGR_INTERLEAVED_READING" (gdal_configurations true st) = some "NO" ∧
    getConfigOption "USE_CUSTOM_INDEXING" (gdal_configurations true st) = some "YES" ∧
    getConfigOption "COMPRESS_NODES" (gdal_configurations true st) = some "NO" ∧
    getConfigOption "MAX_TMPFILE_SIZE" (gdal_configurations true st) = some "100" ∧
    getConfigOption "OGR_INTERLEAVED_READING"
      (gdal_configurations true (gdal_configurations false st)) = some "NO" ∧
    getConfigOption "USE_CUSTOM_INDEXING"
      (gdal_configurations true (gdal_configurations false st)) = some "YES" ∧
    getConfigOption "COMPRESS_NODES"
      (gdal_configurations true (gdal_configurations false st)) = some "NO" ∧
    getConfigOption "MAX_TMPFILE_SIZE"
      (gdal_configurations true (gdal_configurations false st)) = some "100" := by
  refine ⟨rfl, rfl, rfl, rfl, rfl, rfl, rfl, rfl, rfl, rfl, rfl, rfl⟩

/-- C4: for every URL ending in `.osm.pbf`, `.shp.zip` or `.osm.bz2`,
both parsers print the invalid-input diagnostic and return no result while
performing no network request. -/
theorem parsers_reject_file_urls (url : String) (dnet : DirPageOracle)
    (snet : SubPageOracle) (urlPathLen : Nat) (h : hasFormatSuffix url = true) :
    get_raw_directory_table dnet urlPathLen url = (none, 0, [Msg.invalidInputUrl]) ∧
    get_subregion_table snet url = (none, 0, [Msg.invalidInputUrl]) := by
  rw [get_raw_directory_table, get_subregion_table, if_pos h, if_pos h]
  exact ⟨rfl, rfl⟩

/-- Witness for C4 at a concrete direct-file URL. -/
theorem parsers_reject_file_urls_witness :
    hasFormatSuffix "https://download.geofabrik.de/europe/great-britain-latest.osm.pbf" = true ∧
    get_raw_directory_table ⟨some 0⟩ 1
        "https://download.geofabrik.de/europe/great-britain-latest.osm.pbf" =
      (none, 0, [Msg.invalidInputUrl]) ∧
    get_subregion_table ⟨some ⟨[], [], [], []⟩, fun _ => [], some []⟩
        "https://download.geofabrik.de/europe/great-britain-latest.osm.pbf" =
      (none, 0, [Msg.invalidInputUrl]) :=
  ⟨by decide,
   (parsers_reject_file_urls _ ⟨some 0⟩ ⟨some ⟨[], [], [], []⟩, fun _ => [], some []⟩ 1
      (by decide)).1,
   (parsers_reject_file_urls _ ⟨some 0⟩ ⟨some ⟨[], [], [], []⟩, fun _ => [], some []⟩ 1
      (by decide)).2⟩

/-- C6: `remove_subregion_osm_file` fails with the assertion error and
zero filesystem operations on any path without a recognized suffix; on a
valid-suffix path that does not exist it prints the does-not-exist notice
without raising; on an existing file it deletes it and prints a confirmation,
with a deletion error caught and printed rather than re-raised. -/
theorem remove_file_behavior (osFail : Bool) (path : String) (d : Disk) :
    (hasFormatSuffix path = false →
      remove_subregion_osm_file osFail path d = (Except.error (), 0)) ∧
    (hasFormatSuffix path = true → diskLookup d path = none →
      remove_subregion_osm_file osFail path d = (Except.ok (d, [RmMsg.notExist path]), 1)) ∧
    (hasFormatSuffix path = true → (diskLookup d path).isSome →
      remove_subregion_osm_file osFail path d =
        (if osFail then (Except.ok (d, [RmMsg.removeError]), 2)
         else (Except.ok (diskErase d path, [RmMsg.removed path]), 2))) := by
  refine ⟨fun h1 => ?_, fun h1 h2 => ?_, fun h1 h2 => ?_⟩
  · rw [remove_subregion_osm_file, if_pos (by simp [h1])]
  · rw [remove_subregion_osm_file, if_neg (by simp [h1]), if_neg (by simp [h2])]
  · rw [remove_subregion_osm_file, if_neg (by simp [h1]), if_pos h2]

/-- Witness for C6: the three branches at concrete inputs. -/
theorem remove_file_behavior_witness :
    remove_subregion_osm_file false "notes.txt" [("a.osm.pbf", 7)] = (Except.error (), 0) ∧
    remove_subregion_osm_file false "b.shp.zip" [("a.osm.pbf", 7)] =
      (Except.ok ([("a.osm.pbf", 7)], [RmMsg.notExist "b.shp.zip"]), 1) ∧
    remove_subregion_osm_file false "a.osm.pbf" [("a.osm.pbf", 7)] =
      (Except.ok ([], [RmMsg.removed "a.osm.pbf"]), 2) ∧
    remove_subregion_osm_file true "a.osm.pbf" [("a.osm.pbf", 7)] =
      (Except.ok ([("a.osm.pbf", 7)], [RmMsg.removeError]), 2) :=
  ⟨(remove_file_behavior false "notes.txt" [("a.osm.pbf", 7)]).1 (by decide),
   (remove_file_behavior false "b.shp.zip" [("a.osm.pbf", 7)]).2.1 (by decide) (by decide),
   by

     have h := (remove_file_behavior false "a.osm.pbf" [("a.osm.pbf", 7)]).2.2
       (by decide) (by decide)
     simpa using h,
   by
     have h := (remove_file_behavior true "a.osm.pbf" [("a.osm.pbf", 7)]).2.2
       (by decide) (by decide)
     simpa using h⟩

/-- C2 counterexample: with a persisted non-subregion list containing a
duplicate, the no-argument call returns the deduplicated list, not the
persisted list with its multiplicities. -/
theorem retrieve_noargs_cex :
    retrieve_subregion_names_from ukTier ["Algeria", "Algeria"] listSetDiff id 1 [] =
      some ["Algeria"] ∧
    retrieve_subregion_names_from ukTier ["Algeria", "Algeria"] listSetDiff id 1 [] ≠
      some ["Algeria", "Algeria"] := by
  refine ⟨by decide, by decide⟩

/-- C2 amended: the no-argument call returns the persisted non-subregion
list deduplicated, keeping first occurrences in first-seen order — hence the
persisted list itself whenever that list has no duplicate entries. -/
theorem retrieve_noargs (tier : TierDict) (nsl : List String)
    (setDiff : List String → List String → List String)
    (regulate : String → String) (fuel : Nat) :
    retrieve_subregion_names_from tier nsl setDiff regulate fuel [] = some (pyDedup nsl) ∧
    (nsl.Nodup → retrieve_subregion_names_from tier nsl setDiff regulate fuel [] = some nsl) := by
  constructor
  · rw [retrieve_subregion_names_from, if_pos rfl]
  · intro h
    rw [retrieve_subregion_names_from, if_pos rfl, pyDedup_of_nodup nsl h]

/-- Witness for C2 amended, on a duplicate-free persisted list. -/
theorem retrieve_noargs_witness :
    retrieve_subregion_names_from ukTier ["Wales", "Greater London"] listSetDiff id 1 [] =
      some (pyDedup ["Wales", "Greater London"]) ∧
    retrieve_subregion_names_from ukTier ["Wales", "Greater London"] listSetDiff id 1 [] =
      some ["Wales", "Greater London"] :=
  ⟨(retrieve_noargs ukTier ["Wales", "Greater London"] listSetDiff id 1).1,
   (retrieve_noargs ukTier ["Wales", "Greater London"] listSetDiff id 1).2 (by decide)⟩

theorem pyMax_fold_spec (xs : List (String × Nat)) (b : String × Nat) :
    xs.foldl (fun b y => if y.2 > b.2 then y else b) b ∈ b :: xs ∧
    b.2 ≤ (xs.foldl (fun b y => if y.2 > b.2 then y else b) b).2 ∧
    ∀ y ∈ xs, y.2 ≤ (xs.foldl (fun b y => if y.2 > b.2 then y else b) b).2 := by
  induction xs generalizing b with
  | nil => simp
  | cons y xs ih =>
    simp only [List.foldl_cons]
    by_cases h : y.2 > b.2
    · rw [if_pos h]
      obtain ⟨ih1, ih2, ih3⟩ := ih y
      refine ⟨?_, by omega, ?_⟩
      · rcases List.mem_cons.mp ih1 with h1 | h1
        · rw [h1]; exact List.mem_cons_of_mem b (List.mem_cons_self y xs)
        · exact List.mem_cons_of_mem b (List.mem_cons_of_mem y h1)
      · intro z hz
        rcases List.mem_cons.mp hz with hz | hz
        · subst hz; exact ih2
        · exact ih3 z hz
    · rw [if_neg h]
      obtain ⟨ih1, ih2, ih3⟩ := ih b
      refine ⟨?_, ih2, ?_⟩
      · rcases List.mem_cons.mp ih1 with h1 | h1
        · rw [h1]; exact List.mem_cons_self b (y :: xs)
        · exact List.mem_cons_of_mem b (List.mem_cons_of_mem y h1)
      · intro z hz
        rcases List.mem_cons.mp hz with hz | hz
        · subst hz; omega
        · exact ih3 z hz

theorem pyMax_spec (l : List (String × Nat)) (m : String × Nat) (h : pyMax l = some m) :
    m ∈ l ∧ ∀ x ∈ l, x.2 ≤ m.2 := by
  cases l with
  | nil => cases h
  | cons x xs =>
    rw [pyMax] at h
    injection h with h
    subst h
    obtain ⟨h1, h2, h3⟩ := pyMax_fold_spec xs x
    refine ⟨h1, ?_⟩
    intro z hz
    rcases List.mem_cons.mp hz with hz | hz
    · subst hz; exact h2
    · exact h3 z hz

theorem pyMax_isSome (l : List (String × Nat)) (h : l ≠ []) : ∃ m, pyMax l = some m := by
  cases l with
  | nil => exact absurd rfl h
  | cons x xs => exact ⟨_, rfl⟩

theorem extractOne_sound (score : String → String → Nat) (q : String)
    (choices : List String) (cutoff : Nat) (b : String) (s : Nat)
    (h : extractOne score q choices cutoff = some (b, s)) :
    b ∈ choices ∧ score q b = s ∧ cutoff ≤ s ∧ ∀ c ∈ choices, score q c ≤ s := by
  obtain ⟨hmem, hall⟩ := pyMax_spec _ _ h
  rw [List.mem_filter] at hmem
  obtain ⟨hmap, hcut⟩ := hmem
  rw [List.mem_map] at hmap
  obtain ⟨c, hc, hce⟩ := hmap
  rw [Prod.mk.injEq] at hce
  obtain ⟨hc1, hc2⟩ := hce
  subst hc1
  have hcutoff : cutoff ≤ s := of_decide_eq_true hcut
  refine ⟨hc, hc2, hcutoff, ?_⟩
  intro c' hc'
  by_cases h' : cutoff ≤ score q c'
  · have : (c', score q c') ∈ (choices.map (fun c => (c, score q c))).filter
        (fun p => decide (cutoff ≤ p.2)) := by
      rw [List.mem_filter]
      exact ⟨List.mem_map.mpr ⟨c', hc', rfl⟩, decide_eq_true h'⟩
    exact hall _ this
  · omega

theorem extractOne_zero_isSome (score : String → String → Nat) (q : String)
    (choices : List String) (h : choices ≠ []) :
    (extractOne score q choices 0).isSome := by
  rw [extractOne]
  have hf : (choices.map (fun c => (c, score q c))).filter (fun p => decide (0 ≤ p.2)) =
      choices.map (fun c => (c, score q c)) :=
    List.filter_eq_self.mpr (by intro p _; simp)
  rw [hf]
  cases choices with
  | nil => exact absurd rfl h
  | cons c cs => rfl

/-- C10: in `get_subregion_table`, a mismatch between the number of
extracted format anchors and the number of non-missing cells of that format
column raises a `ValueError` that is caught by the same handler as a leaf
page: the function prints the "Checked out" diagnostic and returns no result,
so its observable output (result and printed diagnostic) is identical to that
for a page with no subregions at all. -/
theorem subregion_table_mismatch_like_leaf (url : String) (t : SubTable)
    (anchors : Fmt → List String) (subUrls : Option (List String))
    (leafNet : SubPageOracle)
    (hurl : hasFormatSuffix url = false)
    (fmt : Fmt)
    (hmis : (anchors fmt).length ≠ (t.notnull fmt).count true)
    (hleaf : leafNet.readHtml = none) :
    get_subregion_table ⟨some t, anchors, subUrls⟩ url = (none, 2, [Msg.checkedOut url]) ∧
    get_subregion_table leafNet url = (none, 1, [Msg.checkedOut url]) ∧
    (get_subregion_table ⟨some t, anchors, subUrls⟩ url).1 =
      (get_subregion_table leafNet url).1 ∧
    (get_subregion_table ⟨some t, anchors, subUrls⟩ url).2.2 =
      (get_subregion_table leafNet url).2.2 := by
  have hok : fmtAssignOk t anchors = false := by
    cases hv : fmtAssignOk t anchors
    · rfl
    · exfalso
      have hmem : fmt ∈ fmtOrder := by cases fmt <;> decide
      have := List.all_eq_true.mp hv fmt hmem
      exact hmis (by simpa using this)
  have h1 : get_subregion_table ⟨some t, anchors, subUrls⟩ url =
      (none, 2, [Msg.checkedOut url]) := by
    simp [get_subregion_table, hurl, hok]
  have h2 : get_subregion_table leafNet url = (none, 1, [Msg.checkedOut url]) := by
    simp [get_subregion_table, hurl, hleaf]
  exact ⟨h1, h2, by rw [h1, h2], by rw [h1, h2]⟩

/-- Witness for C10: one row whose pbf cell is non-missing but zero extracted
pbf anchors. -/
theorem subregion_table_mismatch_like_leaf_witness :
    get_subregion_table ⟨some ⟨["Bafrica"], [true], [true], [true]⟩, fun _ => [], some ["u"]⟩
        "https://download.geofabrik.de/africa.html" =
      (none, 2, [Msg.checkedOut "https://download.geofabrik.de/africa.html"]) ∧
    get_subregion_table ⟨none, fun _ => [], none⟩
        "https://download.geofabrik.de/africa.html" =
      (none, 1, [Msg.checkedOut "https://download.geofabrik.de/africa.html"]) :=
  ⟨(subregion_table_mismatch_like_leaf "https://download.geofabrik.de/africa.html"
      ⟨["Bafrica"], [true], [true], [true]⟩ (fun _ => []) (some ["u"])
      ⟨none, fun _ => [], none⟩ (by decide) Fmt.pbf (by decide) rfl).1,
   (subregion_table_mismatch_like_leaf "https://download.geofabrik.de/africa.html"
      ⟨["Bafrica"], [true], [true], [true]⟩ (fun _ => []) (some ["u"])
      ⟨none, fun _ => [], none⟩ (by decide) Fmt.pbf (by decide) rfl).2.1⟩

/-- C9: in `get_default_path_to_osm_file` every URL path segment but the
last is fuzzy-matched with no minimum score cutoff (cutoff 0, unlike the
cutoff 50 of `regulate_input_subregion_name`), so as long as the canonical
name list is non-empty the per-segment matching always produces a directory
name for every segment — it cannot fail with a no-match error, whatever the
segments and scorer. -/
theorem path_segments_always_match (score : String → String → Nat)
    (subregion_names : List String) (parsedPath : List String)
    (h : subregion_names ≠ []) :
    ∃ dirs, get_default_path_dirnames score subregion_names parsedPath = some dirs ∧
      dirs.length = parsedPath.dropLast.length := by
  have hsome : ∀ x ∈ parsedPath.dropLast,
      ((extractOne score x subregion_names 0).map Prod.fst).isSome := by
    intro x _
    obtain ⟨m, hm⟩ := Option.isSome_iff_exists.mp (extractOne_zero_isSome score x subregion_names h)
    rw [hm]
    rfl
  obtain ⟨dirs, hd⟩ := mapMOpt_isSome _ parsedPath.dropLast hsome
  exact ⟨dirs, hd, (mapMOpt_sound _ _ _ hd).2.2⟩

/-- Witness for C9: segments wholly dissimilar to the single canonical name
(scorer constantly 0) still each resolve. -/
theorem path_segments_always_match_witness :
    ∃ dirs, get_default_path_dirnames (fun _ _ => 0) ["England"]
        ["zzz", "qqq", "great-britain-latest.osm.pbf"] = some dirs ∧
      dirs.length = (["zzz", "qqq", "great-britain-latest.osm.pbf"] : List String).dropLast.length :=
  path_segments_always_match (fun _ _ => 0) ["England"]
    ["zzz", "qqq", "great-britain-latest.osm.pbf"] (by decide)

/-- C7: name resolution is idempotent on canonical names — when the input
name occurs in the canonical list, scores 100 against itself and strictly
below 100 against every other listed name, `regulate_input_subregion_name`
returns it unchanged; and for any input whose best fuzzy match reaches the
cutoff 50, the function returns that best-scoring canonical name. -/
theorem regulate_resolution (score : String → String → Nat) (names : List String)
    (name : String) (h1 : name ∈ names) (h2 : score name name = 100)
    (h3 : ∀ c ∈ names, c ≠ name → score name c < 100) :
    regulate_input_subregion_name score names name = some name ∧
    ∀ q b s, extractOne score q names 50 = some (b, s) →
      regulate_input_subregion_name score names q = some b ∧ b ∈ names ∧
        score q b = s ∧ 50 ≤ s ∧ ∀ c ∈ names, score q c ≤ s := by
  constructor
  · have hmem : (name, (100 : Nat)) ∈ (names.map (fun c => (c, score name c))).filter
        (fun p => decide (50 ≤ p.2)) := by
      rw [List.mem_filter]
      refine ⟨List.mem_map.mpr ⟨name, h1, by rw [h2]⟩, by simp⟩
    obtain ⟨m, hm⟩ := pyMax_isSome _ (List.ne_nil_of_mem hmem)
    obtain ⟨hmmem, hall⟩ := pyMax_spec _ _ hm
    have h100 : 100 ≤ m.2 := hall _ hmem
    rw [List.mem_filter] at hmmem
    obtain ⟨hmap, _⟩ := hmmem
    rw [List.mem_map] at hmap
    obtain ⟨c, hc, hce⟩ := hmap
    have hc1 : c = m.1 := by rw [← hce]
    have hc2 : score name c = m.2 := by rw [← hce]
    have hcname : c = name := by
      by_contra hcc
      have := h3 c hc hcc
      omega
    rw [regulate_input_subregion_name, extractOne, hm]
    simp [← hc1, hcname]
  · intro q b s hq
    obtain ⟨hb, hs, hcut, hbest⟩ := extractOne_sound score q names 50 b s hq
    refine ⟨?_, hb, hs, hcut, hbest⟩
    rw [regulate_input_subregion_name, hq]
    rfl

/-- Witness for C7 with a two-name canonical list and an exact-match scorer
dominating all cross scores. -/
theorem regulate_resolution_witness :
    regulate_input_subregion_name (fun a b => if a == b then 100 else 10)
      ["Greater London", "England"] "Greater London" = some "Greater London" :=
  (regulate_resolution (fun a b => if a == b then 100 else 10)
    ["Greater London", "England"] "Greater London" (by decide) (by decide)
    (by decide)).1

theorem downloadOne_skip (resolve : String → Resolved) (answer confirmationRequired : Bool)
    (dlOutcome : String → Option Nat) (verbose : Bool) (nm : String) (d : Disk)
    (h : (diskLookup d (resolve nm).path).isSome) :
    downloadOne resolve answer confirmationRequired dlOutcome false verbose nm d =
      (d, 0, if verbose then [DlMsg.alreadyAvailable (resolve nm).filename (resolve nm).name
          (resolve nm).path] else []) := by
  simp [downloadOne, h]

theorem downloadOne_preserves (resolve : String → Resolved) (answer confirmationRequired : Bool)
    (dlOutcome : String → Option Nat) (verbose : Bool) (nm : String) (d : Disk) (p : String)
    (hp : (diskLookup d p).isSome) :
    diskLookup (downloadOne resolve answer confirmationRequired dlOutcome false verbose nm d).1 p =
      diskLookup d p := by
  by_cases hx : (diskLookup d (resolve nm).path).isSome
  · simp [downloadOne, hx]
  · have hx' : diskLookup d (resolve nm).path = none := Option.not_isSome_iff_eq_none.mp hx
    have hne : p ≠ (resolve nm).path := by
      intro hpe
      rw [hpe, hx'] at hp
      cases hp
    cases hcf : confirmedFn answer confirmationRequired
    · simp [downloadOne, hx', hcf]
    · cases hdl : dlOutcome (resolve nm).url with
      | some v => simp [downloadOne, hx', hcf, hdl, diskLookup_write, hne]
      | none => simp [downloadOne, hx', hcf, hdl]

theorem download_preserves_existing (resolve : String → Resolved)
    (answer confirmationRequired : Bool) (dlOutcome : String → Option Nat) (verbose : Bool) :
    ∀ (names : List String) (d : Disk) (p : String), (diskLookup d p).isSome →
      diskLookup (download_subregion_osm_file resolve answer confirmationRequired dlOutcome
          false verbose names d).1 p = diskLookup d p := by
  intro names
  induction names with
  | nil => intro d p _; rfl
  | cons n rest ih =>
    intro d p hp
    have h1 := downloadOne_preserves resolve answer confirmationRequired dlOutcome verbose n d p hp
    have hp1 : (diskLookup
        (downloadOne resolve answer confirmationRequired dlOutcome false verbose n d).1 p).isSome := by
      rw [h1]; exact hp
    have h2 := ih (downloadOne resolve answer confirmationRequired dlOutcome false verbose n d).1 p hp1
    rw [download_subregion_osm_file]
    rw [h2, h1]

/-- C5: with `update=false`, a requested subregion whose resolved target
file already exists triggers no `download` call and leaves the disk untouched
— printing the "already available" notice exactly when `verbose` — and a
whole multi-name call never changes the content of any initially existing
file. -/
theorem download_skips_existing (resolve : String → Resolved)
    (answer confirmationRequired : Bool) (dlOutcome : String → Option Nat) (verbose : Bool) :
    (∀ nm d, (diskLookup d (resolve nm).path).isSome →
      downloadOne resolve answer confirmationRequired dlOutcome false verbose nm d =
        (d, 0, if verbose then [DlMsg.alreadyAvailable (resolve nm).filename (resolve nm).name
            (resolve nm).path] else [])) ∧
    (∀ names d p, (diskLookup d p).isSome →
      diskLookup (download_subregion_osm_file resolve answer confirmationRequired dlOutcome
          false verbose names d).1 p = diskLookup d p) :=
  ⟨fun nm d h => downloadOne_skip resolve answer confirmationRequired dlOutcome verbose nm d h,
   download_preserves_existing resolve answer confirmationRequired dlOutcome verbose⟩

/-- Witness for C5: one name resolving to an already-present file. -/
theorem download_skips_existing_witness :
    downloadOne (fun _ => ⟨"Greater London", "u", "f.osm.pbf", "p/f.osm.pbf"⟩) true true
        (fun _ => some 9) false true "london" [("p/f.osm.pbf", 3)] =
      ([("p/f.osm.pbf", 3)], 0,
        [DlMsg.alreadyAvailable "f.osm.pbf" "Greater London" "p/f.osm.pbf"]) ∧
    diskLookup (download_subregion_osm_file
        (fun _ => ⟨"Greater London", "u", "f.osm.pbf", "p/f.osm.pbf"⟩) true true
        (fun _ => some 9) false true ["london"] [("p/f.osm.pbf", 3)]).1 "p/f.osm.pbf" =
      diskLookup [("p/f.osm.pbf", 3)] "p/f.osm.pbf" :=
  ⟨(download_skips_existing (fun _ => ⟨"Greater London", "u", "f.osm.pbf", "p/f.osm.pbf"⟩)
      true true (fun _ => some 9) true).1 "london" [("p/f.osm.pbf", 3)] (by decide),
   (download_skips_existing (fun _ => ⟨"Greater London", "u", "f.osm.pbf", "p/f.osm.pbf"⟩)
      true true (fun _ => some 9) true).2 ["london"] [("p/f.osm.pbf", 3)] "p/f.osm.pbf"
      (by decide)⟩

/-- C3 counterexample: a run of `collect_subregion_info_catalogue` that
fails at the downloads-catalogue construction step (e.g. `pd.concat` raising
`ValueError` at line 162) prints the diagnostic, yet the subregion name list
was already persisted at line 151 — so the on-disk state of that cache file
differs after the failed run, refuting "no catalogue artifact is persisted". -/
theorem collect_premature_persist_cex :
    (collect_subregion_info_catalogue true (some CStep.buildDownloads) 1 []).2 = true ∧
    diskLookup (collect_subregion_info_catalogue true (some CStep.buildDownloads) 1 []).1
        "GeoFabrik-subregion-name-list.pickle" = some 1 ∧
    diskLookup ([] : Disk) "GeoFabrik-subregion-name-list.pickle" = none :=
  ⟨rfl, by decide, rfl⟩

/-- C3 amended: on any uncaught error the diagnostic is printed; an error
during the crawl itself (before the first save) persists nothing; in general
the artifacts are written in the fixed source order (name list, URL
dictionary pickle then JSON, downloads catalogue pickle then JSON) and every
cache file whose save step is at or after the failing step is left exactly as
it was before the run — only artifacts already saved before the failure
remain persisted. -/
theorem collect_fail_behavior (failAt : CStep) (runVal : Nat) (d : Disk) :
    (collect_subregion_info_catalogue true (some failAt) runVal d).2 = true ∧
    (failAt = CStep.crawl →
      (collect_subregion_info_catalogue true (some failAt) runVal d).1 = d) ∧
    (∀ s : CStep, ∀ f : String, stepFile s = some f → stepIndex failAt ≤ stepIndex s →
      diskLookup (collect_subregion_info_catalogue true (some failAt) runVal d).1 f =
        diskLookup d f) := by
  cases failAt <;> refine ⟨rfl, ?_, ?_⟩ <;>
    try (intro h; first | rfl | exact CStep.noConfusion h)
  all_goals intro s f hf hle
  all_goals
    cases s <;>
      first
        | exact Option.noConfusion hf
        | (injection hf with hf; subst hf;
           first
             | exact absurd hle (by decide)
             | simp [collect_subregion_info_catalogue, runSteps, collectSteps, stepFile,
                 diskLookup_write])

/-- Witness for C3 amended: a crawl-phase failure leaves an initially
populated cache byte-identical. -/
theorem collect_fail_behavior_witness :
    (collect_subregion_info_catalogue true (some CStep.crawl) 5
        [("GeoFabrik-subregion-name-list.pickle", 2)]).2 = true ∧
    (collect_subregion_info_catalogue true (some CStep.crawl) 5
        [("GeoFabrik-subregion-name-list.pickle", 2)]).1 =
      [("GeoFabrik-subregion-name-list.pickle", 2)] ∧
    diskLookup (collect_subregion_info_catalogue true (some CStep.crawl) 5
        [("GeoFabrik-subregion-name-list.pickle", 2)]).1
        "GeoFabrik-subregion-downloads-catalogue.json" =
      diskLookup [(("GeoFabrik-subregion-name-list.pickle" : String), (2 : Nat))]
        "GeoFabrik-subregion-downloads-catalogue.json" :=
  ⟨(collect_fail_behavior CStep.crawl 5 [("GeoFabrik-subregion-name-list.pickle", 2)]).1,
   (collect_fail_behavior CStep.crawl 5 [("GeoFabrik-subregion-name-list.pickle", 2)]).2.1 rfl,
   (collect_fail_behavior CStep.crawl 5 [("GeoFabrik-subregion-name-list.pickle", 2)]).2.2
     CStep.saveDownloadsJ "GeoFabrik-subregion-downloads-catalogue.json" rfl (by decide)⟩

theorem reachTerm_elim (tier : TierDict) (nsl : List String) (n x : String)
    (h : ReachTerm tier nsl n x) :
    (∃ l, (find_subregions n tier).head? = some l ∧ x ∈ l ∧ x ∈ nsl) ∨
    (∃ l y, (find_subregions n tier).head? = some l ∧ y ∈ l ∧ y ∉ nsl ∧
      ReachTerm tier nsl y x) := by
  match h with
  | ReachTerm.base _ l _ hl hxl hxnsl => exact Or.inl ⟨l, hl, hxl, hxnsl⟩
  | ReachTerm.step _ l y _ hl hyl hynsl hr => exact Or.inr ⟨l, y, hl, hyl, hynsl, hr⟩

theorem pyRetrieveAux_spec (tier : TierDict) (nsl : List String)
    (setDiff : List String → List String → List String)
    (hsd : SetDiffSpec setDiff) :
    ∀ (fuel : Nat) (names result : List String),
      pyRetrieveAux tier nsl setDiff id fuel names = some result →
      result.Nodup ∧ ∀ x, x ∈ result ↔ ∃ n ∈ names, ReachTerm tier nsl n x := by
  intro fuel
  induction fuel with
  | zero =>
    intro names result h
    simp [pyRetrieveAux] at h
  | succ fuel ih =>
    intro names result h
    rw [pyRetrieveAux] at h
    simp only [id_eq] at h
    cases hparts : mapMOpt (fun region => (find_subregions region tier).head?) names with
    | none => rw [hparts] at h; cases h
    | some parts =>
      rw [hparts] at h
      dsimp only at h
      obtain ⟨hpartsF, hpartsB, _⟩ := mapMOpt_sound _ names parts hparts
      have hres : ∀ x, x ∈ parts.flatten ↔
          ∃ n ∈ names, ∃ l, (find_subregions n tier).head? = some l ∧ x ∈ l := by
        intro x
        rw [List.mem_flatten]
        constructor
        · rintro ⟨l, hl, hx⟩
          obtain ⟨n, hn, hfn⟩ := hpartsF l hl
          exact ⟨n, hn, l, hfn, hx⟩
        · rintro ⟨n, hn, l, hl, hx⟩
          obtain ⟨l', hl', hfl'⟩ := hpartsB n hn
          rw [hl] at hfl'
          injection hfl' with he
          exact ⟨l', hl', he ▸ hx⟩
      by_cases hchk : parts.flatten.filter (fun x => !(nsl.contains x)) = []
      · rw [if_pos hchk] at h
        injection h with h
        subst h
        have hterm : ∀ x ∈ parts.flatten, x ∈ nsl := by
          intro x hx
          by_contra hxn
          have hxc : x ∈ parts.flatten.filter (fun x => !(nsl.contains x)) :=
            (mem_filter_not_contains _ _ _).mpr ⟨hx, hxn⟩
          rw [hchk] at hxc
          cases hxc
        refine ⟨pyDedup_nodup _, ?_⟩
        intro x
        rw [pyDedup_mem]
        constructor
        · intro hx
          obtain ⟨n, hn, l, hl, hxl⟩ := (hres x).mp hx
          exact ⟨n, hn, ReachTerm.base n l x hl hxl (hterm x hx)⟩
        · rintro ⟨n, hn, hreach⟩
          rcases reachTerm_elim tier nsl n x hreach with ⟨l, hl, hxl, hxnsl⟩ |
            ⟨l, y, hl, hyl, hynsl, hr⟩
          · exact (hres x).mpr ⟨n, hn, l, hl, hxl⟩
          · have hyres : y ∈ parts.flatten := (hres y).mpr ⟨n, hn, l, hl, hyl⟩
            exact absurd (hterm y hyres) hynsl
      · rw [if_neg hchk] at h
        cases hextras : mapMOpt (fun region => pyRetrieveAux tier nsl setDiff id fuel [region])
            (parts.flatten.filter (fun x => !(nsl.contains x))) with
        | none => rw [hextras] at h; cases h
        | some extras =>
          rw [hextras] at h
          dsimp only at h
          injection h with h
          subst h
          obtain ⟨hexF, hexB, _⟩ := mapMOpt_sound _ _ _ hextras
          obtain ⟨hsdN, hsdM⟩ :=
            hsd parts.flatten (parts.flatten.filter (fun x => !(nsl.contains x)))
          refine ⟨pyDedup_nodup _, ?_⟩
          intro x
          rw [pyDedup_mem, List.mem_append]
          constructor
          · rintro (hx | hx)
            · obtain ⟨hxres, hxnc⟩ := (hsdM x).mp hx
              have hxnsl : x ∈ nsl := by
                by_contra hxn
                exact hxnc ((mem_filter_not_contains _ _ _).mpr ⟨hxres, hxn⟩)
              obtain ⟨n, hn, l, hl, hxl⟩ := (hres x).mp hxres
              exact ⟨n, hn, ReachTerm.base n l x hl hxl hxnsl⟩
            · rw [List.mem_flatten] at hx
              obtain ⟨e, he, hxe⟩ := hx
              obtain ⟨y, hy, hye⟩ := hexF e he
              obtain ⟨hyres, hynsl⟩ := (mem_filter_not_contains _ _ _).mp hy
              obtain ⟨_, hmem⟩ := ih [y] e hye
              obtain ⟨m, hm, hreach⟩ := (hmem x).mp hxe
              rw [List.mem_singleton] at hm
              subst hm
              obtain ⟨n, hn, l, hl, hyl⟩ := (hres m).mp hyres
              exact ⟨n, hn, ReachTerm.step n l m x hl hyl hynsl hreach⟩
          · rintro ⟨n, hn, hreach⟩
            rcases reachTerm_elim tier nsl n x hreach with ⟨l, hl, hxl, hxnsl⟩ |
              ⟨l, y, hl, hyl, hynsl, hr⟩
            · left
              refine (hsdM x).mpr ⟨(hres x).mpr ⟨n, hn, l, hl, hxl⟩, ?_⟩
              intro hxc
              exact ((mem_filter_not_contains _ _ _).mp hxc).2 hxnsl
            · right
              have hyck : y ∈ parts.flatten.filter (fun z => !(nsl.contains z)) :=
                (mem_filter_not_contains _ _ _).mpr ⟨(hres y).mpr ⟨n, hn, l, hl, hyl⟩, hynsl⟩
              obtain ⟨e, he, hye⟩ := hexB y hyck
              obtain ⟨_, hmem⟩ := ih [y] e hye
              rw [List.mem_flatten]
              exact ⟨e, he, (hmem x).mpr ⟨y, List.mem_singleton_self y, hr⟩⟩

/-- C1: for any call of `retrieve_subregion_names_from` with one or more
region names (the inputs resolving to themselves, the Python set-difference
order arbitrary, and the recursion completing within the available fuel), the
returned list has no duplicates and its members are exactly the union of the
recursive expansions of the requested names into terminal subregion names —
independent of the traversal/set-iteration order. -/
theorem retrieve_expands_to_terminals (tier : TierDict) (nsl : List String)
    (setDiff : List String → List String → List String) (regulate : String → String)
    (fuel : Nat) (names result : List String)
    (hsd : SetDiffSpec setDiff) (hreg : ∀ s, regulate s = s) (hne : names ≠ [])
    (h : retrieve_subregion_names_from tier nsl setDiff regulate fuel names = some result) :
    result.Nodup ∧ ∀ x, x ∈ result ↔ ∃ n ∈ names, ReachTerm tier nsl n x := by
  have hr : regulate = id := funext hreg
  subst hr
  rw [retrieve_subregion_names_from, if_neg hne] at h
  exact pyRetrieveAux_spec tier nsl setDiff hsd fuel names result h

/-- Witness for C1 on the tier of Testable Property 3. -/
theorem retrieve_expands_to_terminals_witness :
    (["United Kingdom"] : List String) ≠ [] ∧
    retrieve_subregion_names_from ukTier ["Greater London", "Wales"] listSetDiff id 3
        ["United Kingdom"] = some ["Wales", "Greater London"] ∧
    ((["Wales", "Greater London"] : List String).Nodup ∧
      ∀ x, x ∈ (["Wales", "Greater London"] : List String) ↔
        ∃ n ∈ (["United Kingdom"] : List String),
          ReachTerm ukTier ["Greater London", "Wales"] n x) :=
  ⟨by decide, by decide,
   retrieve_expands_to_terminals ukTier ["Greater London", "Wales"] listSetDiff id 3
     ["United Kingdom"] ["Wales", "Greater London"] listSetDiff_spec (fun _ => rfl)
     (by decide) (by decide)⟩

end Pydriosm
